import Mathlib

/-!
Shallow embedding of the Goa mineral levy calculator (src/app.py).

Text is modelled as lists of characters (`Str`), Python floats as exact
rationals, Python dicts as association lists, and spreadsheet cells as a
`Value` type (missing / text / numeric).  The embedded functions keep the
names of the source functions: `clean_currency`, `get_grade_code`,
`get_ore_type`, `extract_prices_regex`, and the per-row levy computation
from `process_data`.
-/

namespace MineralCalc

/-- Text is a list of characters. -/
abbrev Str := List Char

/-- Characters of a Lean string literal, as the character-list model. -/
def chars (s : String) : Str := s.toList

/-- Python str.lower (ASCII). -/
def lowerS (s : Str) : Str := s.map Char.toLower

/-- Python str.upper (ASCII). -/
def upperS (s : Str) : Str := s.map Char.toUpper

/-- Python str.strip: drop leading and trailing whitespace. -/
def strip (s : Str) : Str :=
  ((s.dropWhile Char.isWhitespace).reverse.dropWhile Char.isWhitespace).reverse

/-- Value of a digit string read in base 10 (Python int of a digit run). -/
def digitsVal (s : Str) : ℕ := s.foldl (fun a c => a * 10 + (c.toNat - 48)) 0

/-- First index at or after offset i where pat occurs in the remaining text
(Python str.find, with None for -1). -/
def findSubFrom (pat : Str) : Str → ℕ → Option ℕ
  | [], i => if pat.isPrefixOf ([] : Str) then some i else none
  | c :: t, i => if pat.isPrefixOf (c :: t) then some i else findSubFrom pat t (i + 1)

/-- Python str.find: index of the first occurrence of pat in s. -/
def findSub (pat s : Str) : Option ℕ := findSubFrom pat s 0

/-- Python substring containment test (pat in s). -/
def containsSub (pat s : Str) : Bool := (findSub pat s).isSome

/-- Regex word character (\w): letters, digits, underscore. -/
def isWordChar (c : Char) : Bool := c.isAlphanum || c == '_'

/-- Scanner for a case-insensitive whole-word regex search (\b pat \b):
returns the index of the leftmost occurrence of the (lowered) pattern
with non-word characters (or the text ends) on both sides.  The previous
character is threaded through the scan. -/
def findWordAux (p : Str) : Str → ℕ → Option Char → Option ℕ
  | [], _, _ => none
  | c :: t, i, back =>
    if p.isPrefixOf (c :: t)
        && (match back with
            | none => true
            | some b => !isWordChar b)
        && (match (c :: t).drop p.length with
            | [] => true
            | d :: _ => !isWordChar d)
    then some i
    else findWordAux p t (i + 1) (some c)

/-- re.search of a whole-word, case-insensitive literal (used for the
jurisdiction names "Goa" and "Gujarat"); the case-insensitive search is
modelled by searching the lowercased text for the lowercased pattern. -/
def findWordCI (pat s : Str) : Option ℕ := findWordAux (lowerS pat) (lowerS s) 0 none

/-- spreadsheet cell: missing (NaN / None), text, or numeric. -/
inductive Value where
  | na : Value
  | str : Str → Value
  | num : ℚ → Value
deriving DecidableEq

/-- isNA v is true exactly on the missing-value marker (pd.isna). -/
def isNA : Value → Bool
  | .na => true
  | _ => false

/-- Decimal digits of a natural number, with explicit fuel (the fuel n + 1
always suffices). -/
def natToStrAux : ℕ → ℕ → Str
  | 0, _ => []
  | fuel + 1, n =>
    if n < 10 then [Nat.digitChar n]
    else natToStrAux fuel (n / 10) ++ [Nat.digitChar (n % 10)]

/-- Decimal rendering of a natural number. -/
def natToStr (n : ℕ) : Str := natToStrAux (n + 1) n

/-- Digits after the decimal point of a rational in the interval from 0 to 1,
with fuel; for a terminating decimal this is the exact expansion. -/
def fracDigits : ℕ → ℚ → Str
  | 0, _ => []
  | fuel + 1, x =>
    if x = 0 then []
    else
      let d := ((x * 10).num.toNat) / ((x * 10).den)
      Nat.digitChar d :: fracDigits fuel (x * 10 - (d : ℚ))

/-- Modelled from Python str() on a float: sign, integer part, a decimal
point, and the fractional expansion (a single 0 when the value is
integral, matching repr of an integral float).  Values whose expansion
does not terminate within the fuel are truncated; no theorem below
depends on such values. -/
def pyStrNum (q : ℚ) : Str :=
  let a := |q|
  let ip := a.num.toNat / a.den
  let fp := fracDigits 64 (a - (ip : ℚ))
  (if q < 0 then ['-'] else []) ++ natToStr ip ++ '.' :: (if fp = [] then ['0'] else fp)

/-- Python str() applied to a cell value. -/
def pyStr : Value → Str
  | .na => chars "nan"
  | .str s => s
  | .num q => pyStrNum q

/-- Modelled from Python float() on decimal notation: optional sign, digits
with an optional fractional part, optional exponent.  The special forms
inf/nan and underscore separators are outside the modelled grammar. -/
def pyFloatQ : Str → Option ℚ
  | s =>
    let sp : ℚ × Str :=
      match s with
      | '+' :: r => (1, r)
      | '-' :: r => (-1, r)
      | _ => (1, s)
    let ipp := sp.2.span Char.isDigit
    let fpp : Option Str × Str :=
      match ipp.2 with
      | '.' :: r =>
        let fr := r.span Char.isDigit
        (some fr.1, fr.2)
      | _ => (none, ipp.2)
    if ipp.1 = [] ∧ fpp.1.getD [] = [] then none
    else
      let mant : ℚ :=
        (digitsVal ipp.1 : ℚ) + (digitsVal (fpp.1.getD []) : ℚ) / (10 : ℚ) ^ (fpp.1.getD []).length
      match fpp.2 with
      | [] => some (sp.1 * mant)
      | 'e' :: r =>
        let esp : ℤ × Str :=
          match r with
          | '+' :: t => (1, t)
          | '-' :: t => (-1, t)
          | _ => (1, r)
        let edp := esp.2.span Char.isDigit
        if edp.1 = [] ∨ edp.2 ≠ [] then none
        else some (sp.1 * mant * (10 : ℚ) ^ (esp.1 * (digitsVal edp.1 : ℤ)))
      | 'E' :: r =>
        let esp : ℤ × Str :=
          match r with
          | '+' :: t => (1, t)
          | '-' :: t => (-1, t)
          | _ => (1, r)
        let edp := esp.2.span Char.isDigit
        if edp.1 = [] ∨ edp.2 ≠ [] then none
        else some (sp.1 * mant * (10 : ℚ) ^ (esp.1 * (digitsVal edp.1 : ℤ)))
      | _ => none

/-- The textual not-available markers of clean_currency (app.py line 41). -/
def naStrings : List Str := [chars "na", chars "nil", ([] : Str), chars "nan"]

/-- str(value).replace(',', '').replace(' ', '') from app.py line 44. -/
def cleanNumStr (v : Value) : Str :=
  (pyStr v).filter (fun c => !(c == ',') && !(c == ' '))

/-- clean_currency (app.py lines 40-46): 0 for missing or textual
not-available markers, otherwise the parsed number with grouping
separators stripped, and 0 again when parsing fails. -/
def clean_currency (v : Value) : ℚ :=
  match v with
  | .na => 0
  | _ =>
    if lowerS (strip (pyStr v)) ∈ naStrings then 0
    else
      match pyFloatQ (cleanNumStr v) with
      | some q => q
      | none => 0

/-- ORE_FULL_FORMS (app.py lines 21-27). -/
def ORE_FULL_FORMS : List (String × String) :=
  [("L", "Iron Ore (Lumps)"), ("F", "Iron Ore (Fines)"), ("C", "Concentrates"),
   ("M", "Manganese"), ("B", "Bauxite")]

/-- GRADE_FULL_FORMS (app.py lines 29-36). -/
def GRADE_FULL_FORMS : List (String × String) :=
  [("A", "Below 55% Fe"), ("B", "55% to below 58% Fe"), ("C", "58% to below 60% Fe"),
   ("D", "60% to below 62% Fe"), ("E", "62% to below 65% Fe"), ("F", "65% Fe and above")]

/-- The numeric bucketing chain of get_grade_code (app.py lines 61-67),
applied to the first extracted integer. -/
def gradeBucket (val : ℕ) : String :=
  if val < 55 then "A"
  else if 55 ≤ val ∧ val < 58 then "B"
  else if 58 ≤ val ∧ val < 60 then "C"
  else if 60 ≤ val ∧ val < 62 then "D"
  else if 62 ≤ val ∧ val < 65 then "E"
  else if 65 ≤ val then "F"
  else "Unknown"

/-- Value of the first maximal digit run in s (re.findall of a digit run,
then int of the first element), or none when s holds no digit. -/
def firstNum : Str → Option ℕ
  | [] => none
  | c :: t =>
    if c.isDigit then some (digitsVal ((c :: t).takeWhile Char.isDigit))
    else firstNum t

/-- get_grade_code (app.py lines 48-67). -/
def get_grade_code (v : Value) : String :=
  match v with
  | .na => "Unknown"
  | _ =>
    let s := upperS (strip (pyStr v))
    if (GRADE_FULL_FORMS.lookup (String.mk s)).isSome then String.mk s
    else
      let sl := lowerS s
      if containsSub (chars "below") sl && containsSub (chars "55") sl then "A"
      else if containsSub (chars "65") sl && containsSub (chars "above") sl then "F"
      else
        match firstNum s with
        | none => "Unknown"
        | some val => gradeBucket val

/-- get_ore_type (app.py lines 69-78); None is modelled by Option. -/
def get_ore_type (v : Value) : Option String :=
  match v with
  | .na => none
  | _ =>
    let s := lowerS (strip (pyStr v))
    if containsSub (chars "bauxite") s then some "B"
    else if containsSub (chars "manganese") s then some "M"
    else if s = chars "l" then some "L"
    else if s = chars "f" then some "F"
    else if s = chars "c" then some "C"
    else if containsSub (chars "lump") s then some "L"
    else if containsSub (chars "fine") s then some "F"
    else if containsSub (chars "conc") s then some "C"
    else none

/-- Inner dict of the price table: grade code to integer price. -/
abbrev GradeMap := List (String × ℕ)

/-- The price table: commodity code to grade map (a Python dict of dicts). -/
abbrev PriceTable := List (String × GradeMap)

/-- prices = {"L": {}, "F": {}, "C": {}} (app.py line 83). -/
def initPrices : PriceTable := [("L", []), ("F", []), ("C", [])]

/-- Python dict assignment m[k] = v on an association list: overwrite in
place when the key exists, else append. -/
def dictSet (m : GradeMap) (k : String) (v : ℕ) : GradeMap :=
  if (m.lookup k).isSome then m.map (fun p => if p.1 = k then (k, v) else p)
  else m ++ [(k, v)]

/-- prices[o][g] = v on the table (o is always a key of the table here). -/
def setPrice (t : PriceTable) (o g : String) (v : ℕ) : PriceTable :=
  t.map (fun p => if p.1 = o then (o, dictSet p.2 g v) else p)

/-- Nested dict lookup: some p exactly when o is a key of t and g a key of
its grade map (the membership tests of app.py line 205, with the value of
line 206). -/
def lookupPrice (t : PriceTable) (o g : String) : Option ℕ :=
  match t.lookup o with
  | none => none
  | some m => m.lookup g

/-- Text flattening of app.py line 100: newlines to spaces, double quotes
and commas removed. -/
def flatten (s : Str) : Str :=
  (s.map (fun c => if c = '\n' then ' ' else c)).filter (fun c => !(c == '"') && !(c == ','))

/-- Section isolation of app.py lines 85-97: the text from the first
whole-word "Goa" up to the first following whole-word "Gujarat", or a
1500 character cutoff when Gujarat is missing.  When Goa is missing the
section is empty (the source returns the still-empty table directly,
which coincides with parsing an empty section). -/
def goaSection (text : Str) : Str :=
  match findWordCI (chars "Goa") text with
  | none => []
  | some start =>
    let rest := text.drop start
    let stop :=
      match findWordCI (chars "Gujarat") rest with
      | some e => e
      | none => 1500
    rest.take stop

/-- The flattened Goa section of a document text. -/
def goaFlat (text : Str) : Str := flatten (goaSection text)

/-- The commodity anchors of app.py lines 103-110: first occurrence of
lump / fine / conc in the lowered flat text, in that construction order. -/
def oreIdxRaw (flat : Str) : List (String × ℕ) :=
  (match findSub (chars "lump") (lowerS flat) with
   | some i => [(("L" : String), i)]
   | none => []) ++
  (match findSub (chars "fine") (lowerS flat) with
   | some i => [(("F" : String), i)]
   | none => []) ++
  (match findSub (chars "conc") (lowerS flat) with
   | some i => [(("C" : String), i)]
   | none => [])

/-- Stable insertion of an indexed anchor by position. -/
def insertIdx : (String × ℕ) → List (String × ℕ) → List (String × ℕ)
  | x, [] => [x]
  | x, y :: t => if x.2 ≤ y.2 then x :: y :: t else y :: insertIdx x t

/-- Stable sort by position (indices.sort of app.py line 112). -/
def isort : List (String × ℕ) → List (String × ℕ)
  | [] => []
  | x :: t => insertIdx x (isort t)

/-- The sorted commodity anchors. -/
def oreIdxs (flat : Str) : List (String × ℕ) := isort (oreIdxRaw flat)

/-- Block extraction of app.py lines 125-129: each anchor's block runs to
the next anchor, the last one to the end of the flat text. -/
def mkBlocks (flat : Str) : List (String × ℕ) → List (String × Str)
  | [] => []
  | (o, st) :: rest =>
    let en := match rest with
              | (_, st2) :: _ => st2
              | [] => flat.length
    (o, (flat.drop st).take (en - st)) :: mkBlocks flat rest

/-- The commodity blocks of the flattened Goa section. -/
def oreBlocks (flat : Str) : List (String × Str) := mkBlocks flat (oreIdxs flat)

/-- End position of the lazy regex search p1 .*? p2 (on newline-free text):
re.search scans start positions left to right, so the match starts at the
first occurrence of p1 followed somewhere by p2, and the lazy dot makes
it end at the first occurrence of p2 after that p1. -/
def searchPairEnd (p1 p2 : Str) (s : Str) : Option ℕ :=
  match findSub p1 s with
  | none => none
  | some i =>
    match findSub p2 (s.drop (i + p1.length)) with
    | none => none
    | some k => some (i + p1.length + k + p2.length)

/-- After the literal "below": a whitespace run then the literal "55"
(the \s*55 tail of the grade-A pattern; the run is followed by a
non-whitespace character, so greedy matching consumes exactly the run). -/
def below55End (s : Str) : Option ℕ :=
  let sp := (s.takeWhile Char.isWhitespace).length
  if (chars "55").isPrefixOf (s.drop sp) then some (sp + 2) else none

/-- Scanner for the grade-A pattern below\s*55: leftmost start where the
whole pattern matches, returning the end position. -/
def searchBelow55From : Str → ℕ → Option ℕ
  | [], _ => none
  | c :: t, i =>
    if (chars "below").isPrefixOf (c :: t) then
      match below55End ((c :: t).drop 5) with
      | some k => some (i + 5 + k)
      | none => searchBelow55From t (i + 1)
    else searchBelow55From t (i + 1)

/-- re.search end position of the grade-A pattern on lowered text. -/
def searchBelow55 (s : Str) : Option ℕ := searchBelow55From s 0

/-- The grade patterns of app.py lines 115-122, as end-position searchers
over the lowered block, in the dict's insertion (iteration) order. -/
def gradePats : List (String × (Str → Option ℕ)) :=
  [("A", searchBelow55),
   ("B", searchPairEnd (chars "55") (chars "58")),
   ("C", searchPairEnd (chars "58") (chars "60")),
   ("D", searchPairEnd (chars "60") (chars "62")),
   ("E", searchPairEnd (chars "62") (chars "65")),
   ("F", searchPairEnd (chars "65") (chars "above"))]

/-- First value-shaped token of a snippet, per the regex of app.py line
137: at each position, a run of at least two digits wins (group 1, with
at most five digits taken greedily), otherwise the literal NA; some
(some n) is a number, some none is NA, none is neither. -/
def valToken : Str → Option (Option ℕ)
  | [] => none
  | c :: t =>
    if c.isDigit && (match t with
                     | d :: _ => d.isDigit
                     | [] => false) then
      some (some (digitsVal (((c :: t).takeWhile Char.isDigit).take 5)))
    else if (chars "na").isPrefixOf (c :: t) then some none
    else valToken t

/-- Price of one grade cell inside a (lowered) block, per app.py lines
131-140: on a pattern match, the 40-character snippet after the match is
searched; only a numeric token records a price. -/
def gradeCell (bl : Str) (search : Str → Option ℕ) : Option ℕ :=
  match search bl with
  | none => none
  | some e =>
    match valToken ((bl.drop e).take 40) with
    | some (some n) => some n
    | _ => none

/-- The grade-price assignments produced inside one commodity block, in
pattern order. -/
def blockEvents (block : Str) : List (String × ℕ) :=
  gradePats.filterMap (fun p => (gradeCell (lowerS block) p.2).map (fun v => (p.1, v)))

/-- All price assignments of one parse, in execution order: blocks in
sorted anchor order, grades in pattern order. -/
def priceEvents (flat : Str) : List ((String × String) × ℕ) :=
  (oreBlocks flat).flatMap (fun ob => (blockEvents ob.2).map (fun e => ((ob.1, e.1), e.2)))

/-- One assignment step prices[o][g] = v. -/
def priceStep (t : PriceTable) (e : (String × String) × ℕ) : PriceTable :=
  setPrice t e.1.1 e.1.2 e.2

/-- Key equality test for price assignments. -/
def keyMatch (o g : String) (e : (String × String) × ℕ) : Bool :=
  e.1.1 == o && e.1.2 == g

/-- extract_prices_regex (app.py lines 82-142): the table obtained by
running all price assignments of the isolated Goa section in order,
starting from the three empty commodity dicts. -/
def extract_prices_regex (text : Str) : PriceTable :=
  (priceEvents (goaFlat text)).foldl priceStep initPrices

/-- The per-record levy outputs of process_data (app.py lines 186-212). -/
structure Levy where
  qty : ℚ
  rate : ℚ
  levStatus : String
  oreDesc : Value
  gradeDesc : String
  base : ℚ
  royalty : ℚ
  dmf : ℚ
deriving DecidableEq

/-- The rate / status resolution of app.py lines 198-208: falsy ore code,
then unknown grade, then table membership. -/
def rateStatus (prices : PriceTable) (oreCode : Option String) (gradeCode : String) : ℚ × String :=
  match oreCode with
  | none => (0, "Error: Invalid Ore Type")
  | some o =>
    if gradeCode = "Unknown" then (0, "Error: Invalid Grade")
    else
      match lookupPrice prices o gradeCode with
      | some p => ((p : ℚ), "Success")
      | none => (0, "Rate Not Found (NA in Gazette)")

/-- The levy computation of app.py lines 186-212 for one record's raw
quantity, ore and grade cells. -/
def levyFields (prices : PriceTable) (qtyRaw oreRaw gradeRaw : Value) : Levy :=
  let qty := clean_currency qtyRaw
  let oreCode := get_ore_type oreRaw
  let gradeCode := get_grade_code gradeRaw
  let rs := rateStatus prices oreCode gradeCode
  let base := qty * rs.1
  let royalty := base * 0.15
  let dmf := royalty * 0.30
  { qty := qty
    rate := rs.1
    levStatus := rs.2
    oreDesc := match oreCode with
               | some o => Value.str (chars ((ORE_FULL_FORMS.lookup o).getD o))
               | none => Value.na
    gradeDesc := (GRADE_FULL_FORMS.lookup gradeCode).getD gradeCode
    base := base
    royalty := royalty
    dmf := dmf }

/-- One spreadsheet row: column name to cell value. -/
abbrev Row := List (String × Value)

/-- The seven fields added by data.update (app.py lines 215-223), in
insertion order. -/
def addedFields (f : Levy) : Row :=
  [("Standardized Ore", f.oreDesc),
   ("Standardized Grade", Value.str (chars f.gradeDesc)),
   ("IBM Rate (₹)", Value.num f.rate),
   ("Base Value (₹)", Value.num f.base),
   ("Royalty Payable (15%)", Value.num f.royalty),
   ("DMF Payable (30%)", Value.num f.dmf),
   ("Calculation Status", Value.str (chars f.levStatus))]

/-- The names of the seven added fields. -/
def addedNames : List String :=
  ["Standardized Ore", "Standardized Grade", "IBM Rate (₹)", "Base Value (₹)",
   "Royalty Payable (15%)", "DMF Payable (30%)", "Calculation Status"]

/-- Python dict.update on an association list: existing keys are
overwritten in place, new keys are appended in order. -/
def dictUpdate (d u : Row) : Row :=
  d.map (fun p => match u.lookup p.1 with
                  | some v => (p.1, v)
                  | none => p)
    ++ u.filter (fun q => (d.lookup q.1).isNone)

/-- row.get(k, d): the cell value, or the default when the column is
missing. -/
def rowGet (row : Row) (k : String) (d : Value) : Value := (row.lookup k).getD d

/-- The quantity column selection of app.py line 186: the first column
whose lowered name has quantity as a substring, with the fallback name. -/
def qtyColumn (columns : List String) : String :=
  (columns.find? (fun c => containsSub (chars "quantity") (lowerS (chars c)))).getD "Quantity"

/-- The levy fields of one row (app.py lines 186-212). -/
def recordLevy (prices : PriceTable) (columns : List String) (row : Row) : Levy :=
  levyFields prices (rowGet row (qtyColumn columns) (Value.num 0))
    (rowGet row "Type of Ore" (Value.str []))
    (rowGet row "Grade ( Fe%)" (Value.str []))

/-- One output row (app.py lines 214-224): the input row updated with the
seven added fields. -/
def processRecord (prices : PriceTable) (columns : List String) (row : Row) : Row :=
  dictUpdate row (addedFields (recordLevy prices columns row))

/-- The row loop of process_data (app.py lines 184-224): one output row
per input row, in input order. -/
def process_rows (prices : PriceTable) (columns : List String) (rows : List Row) : List Row :=
  rows.map (processRecord prices columns)

/-! Helper lemmas: substring search and association-list lookups. -/

theorem isPrefixOf_iff_ex : ∀ (p s : Str), p.isPrefixOf s = true ↔ ∃ v, s = p ++ v
  | [], s => by simp [List.isPrefixOf]
  | a :: p, [] => by simp [List.isPrefixOf]
  | a :: p, b :: s => by
    simp only [List.isPrefixOf, Bool.and_eq_true, beq_iff_eq]
    constructor
    · rintro ⟨rfl, h⟩
      obtain ⟨v, rfl⟩ := (isPrefixOf_iff_ex p s).1 h
      exact ⟨v, rfl⟩
    · rintro ⟨v, hv⟩
      injection hv with h1 h2
      subst h1
      exact ⟨rfl, (isPrefixOf_iff_ex p s).2 ⟨v, h2⟩⟩

theorem findSubFrom_isSome_iff : ∀ (pat s : Str) (i : ℕ),
    (findSubFrom pat s i).isSome = true ↔ ∃ u v, s = u ++ pat ++ v
  | pat, [], i => by
    simp only [findSubFrom]
    constructor
    · intro h
      by_cases hp : pat.isPrefixOf ([] : Str) = true
      · obtain ⟨v, hv⟩ := (isPrefixOf_iff_ex pat []).1 hp
        exact ⟨[], v, hv⟩
      · simp [hp] at h
    · rintro ⟨u, v, hv⟩
      have : pat = [] := by
        cases u with
        | nil =>
          cases pat with
          | nil => rfl
          | cons a t => simp at hv
        | cons a t => simp at hv
      subst this
      simp [List.isPrefixOf]
  | pat, c :: t, i => by
    simp only [findSubFrom]
    by_cases hp : pat.isPrefixOf (c :: t) = true
    · rw [if_pos hp]
      simp only [Option.isSome_some, true_iff]
      obtain ⟨v, hv⟩ := (isPrefixOf_iff_ex pat (c :: t)).1 hp
      exact ⟨[], v, by simpa using hv⟩
    · rw [if_neg hp]
      rw [findSubFrom_isSome_iff pat t (i + 1)]
      constructor
      · rintro ⟨u, v, rfl⟩
        exact ⟨c :: u, v, rfl⟩
      · rintro ⟨u, v, hv⟩
        cases u with
        | nil =>
          exfalso
          apply hp
          exact (isPrefixOf_iff_ex pat (c :: t)).2 ⟨v, by simpa using hv⟩
        | cons a u =>
          injection hv with h1 h2
          exact ⟨u, v, h2⟩

theorem containsSub_iff (pat s : Str) :
    containsSub pat s = true ↔ ∃ u v, s = u ++ pat ++ v := by
  unfold containsSub findSub
  exact findSubFrom_isSome_iff pat s 0

theorem containsSub_false_iff (pat s : Str) :
    containsSub pat s = false ↔ ¬ ∃ u v, s = u ++ pat ++ v := by
  rw [← containsSub_iff pat s]
  cases containsSub pat s <;> simp

section AListHelpers

variable {β : Type}

theorem lookup_append_mc (a b : List (String × β)) (k : String) :
    (a ++ b).lookup k =
      match a.lookup k with
      | some v => some v
      | none => b.lookup k := by
  induction a with
  | nil => simp [List.lookup]
  | cons p t ih =>
    obtain ⟨x, w⟩ := p
    cases hkx : k == x with
    | true => simp [List.lookup, hkx]
    | false => simp [List.lookup, hkx, ih]

theorem lookup_none_of_not_mem_keys (m : List (String × β)) (k : String)
    (h : k ∉ m.map Prod.fst) : m.lookup k = none := by
  induction m with
  | nil => rfl
  | cons p t ih =>
    obtain ⟨x, w⟩ := p
    simp only [List.map_cons, List.mem_cons] at h
    push_neg at h
    have hkx : (k == x) = false := by
      simp [h.1]
    simp only [List.lookup, hkx]
    exact ih h.2

theorem lookup_isSome_of_mem_keys {β : Type} (m : List (String × β)) (k : String)
    (h : k ∈ m.map Prod.fst) : (m.lookup k).isSome = true := by
  induction m with
  | nil => simp at h
  | cons p t ih =>
    obtain ⟨x, w⟩ := p
    by_cases hx : k = x
    · subst hx
      simp [List.lookup]
    · have hkx : (k == x) = false := by simp [hx]
      simp only [List.map_cons, List.mem_cons] at h
      simp only [List.lookup, hkx]
      exact ih (h.resolve_left hx)

end AListHelpers

/-! Helper lemmas: Python dict assignment on the price table. -/

theorem lookup_overwrite_self (t : GradeMap) (k : String) (v : ℕ)
    (h : (t.lookup k).isSome = true) :
    (t.map (fun p => if p.1 = k then (k, v) else p)).lookup k = some v := by
  induction t with
  | nil => simp [List.lookup] at h
  | cons p t ih =>
    obtain ⟨x, w⟩ := p
    rw [List.map_cons]
    by_cases hx : x = k
    · subst hx
      rw [if_pos rfl]
      simp [List.lookup]
    · rw [if_neg hx]
      have hkx : (k == x) = false := by simp [Ne.symm hx]
      simp only [List.lookup, hkx] at h ⊢
      exact ih h

theorem lookup_overwrite_ne (t : GradeMap) (k k2 : String) (v : ℕ) (hne : k ≠ k2) :
    (t.map (fun p => if p.1 = k2 then (k2, v) else p)).lookup k = t.lookup k := by
  induction t with
  | nil => rfl
  | cons p t ih =>
    obtain ⟨x, w⟩ := p
    rw [List.map_cons]
    by_cases hx : x = k2
    · subst hx
      rw [if_pos rfl]
      have hkx : (k == x) = false := by simp [hne]
      simp only [List.lookup, hkx]
      exact ih
    · rw [if_neg hx]
      cases hkx : k == x with
      | true => simp [List.lookup, hkx]
      | false =>
        simp only [List.lookup, hkx]
        exact ih

theorem lookup_dictSet_self (m : GradeMap) (k : String) (v : ℕ) :
    (dictSet m k v).lookup k = some v := by
  unfold dictSet
  by_cases h : (m.lookup k).isSome = true
  · rw [if_pos h]
    exact lookup_overwrite_self m k v h
  · rw [if_neg h]
    rw [lookup_append_mc]
    have hnone : m.lookup k = none := by
      cases hm : m.lookup k
      · rfl
      · rw [hm] at h
        simp at h
    rw [hnone]
    simp [List.lookup]

theorem lookup_dictSet_ne (m : GradeMap) (k k2 : String) (v : ℕ) (hne : k ≠ k2) :
    (dictSet m k2 v).lookup k = m.lookup k := by
  unfold dictSet
  by_cases h : (m.lookup k2).isSome = true
  · rw [if_pos h]
    exact lookup_overwrite_ne m k k2 v hne
  · rw [if_neg h]
    rw [lookup_append_mc]
    cases hm : m.lookup k with
    | some w => rfl
    | none =>
      have hkk : (k == k2) = false := by simp [hne]
      simp [List.lookup, hkk]

theorem lookup_setPrice (t : PriceTable) (o g : String) (v : ℕ) (k : String) :
    (setPrice t o g v).lookup k =
      (t.lookup k).map (fun m => if k = o then dictSet m g v else m) := by
  induction t with
  | nil => rfl
  | cons p t ih =>
    obtain ⟨x, m⟩ := p
    unfold setPrice at ih ⊢
    rw [List.map_cons]
    by_cases hx : x = o
    · subst hx
      rw [if_pos rfl]
      by_cases hk : k = x
      · subst hk
        simp [List.lookup]
      · have hkx : (k == x) = false := by simp [hk]
        simp only [List.lookup, hkx]
        exact ih
    · rw [if_neg hx]
      by_cases hk : k = x
      · subst hk
        have hko : ¬ k = o := hx
        simp [List.lookup, hko]
      · have hkx : (k == x) = false := by simp [hk]
        simp only [List.lookup, hkx]
        exact ih

theorem mapFst_setPrice (t : PriceTable) (o g : String) (v : ℕ) :
    (setPrice t o g v).map Prod.fst = t.map Prod.fst := by
  induction t with
  | nil => rfl
  | cons p t ih =>
    obtain ⟨x, m⟩ := p
    unfold setPrice at ih ⊢
    rw [List.map_cons, List.map_cons, List.map_cons]
    by_cases hx : x = o
    · subst hx
      rw [if_pos rfl]
      simpa using ih
    · rw [if_neg hx]
      simpa using ih

theorem lookupPrice_setPrice_self (t : PriceTable) (o g : String) (v : ℕ)
    (h : o ∈ t.map Prod.fst) :
    lookupPrice (setPrice t o g v) o g = some v := by
  unfold lookupPrice
  rw [lookup_setPrice]
  have hs := lookup_isSome_of_mem_keys t o h
  cases ht : t.lookup o with
  | none =>
    rw [ht] at hs
    simp at hs
  | some m =>
    simp [lookup_dictSet_self]

theorem lookupPrice_setPrice_ne (t : PriceTable) (o g o2 g2 : String) (v : ℕ)
    (h : ¬(o = o2 ∧ g = g2)) :
    lookupPrice (setPrice t o2 g2 v) o g = lookupPrice t o g := by
  unfold lookupPrice
  rw [lookup_setPrice]
  cases ht : t.lookup o with
  | none => rfl
  | some m =>
    simp only [Option.map_some']
    by_cases ho : o = o2
    · subst ho
      rw [if_pos rfl]
      have hg : g ≠ g2 := fun hg => h ⟨rfl, hg⟩
      exact lookup_dictSet_ne m g g2 v hg
    · rw [if_neg ho]

theorem mapFst_foldl_priceStep (evs : List ((String × String) × ℕ)) :
    ∀ t : PriceTable, ((evs.foldl priceStep t).map Prod.fst) = t.map Prod.fst := by
  induction evs with
  | nil => intro t; rfl
  | cons e evs ih =>
    intro t
    rw [List.foldl_cons, ih]
    exact mapFst_setPrice t e.1.1 e.1.2 e.2

theorem keyMatch_true_iff (o g : String) (e : (String × String) × ℕ) :
    keyMatch o g e = true ↔ e.1.1 = o ∧ e.1.2 = g := by
  simp [keyMatch]

theorem lookupPrice_foldl (evs : List ((String × String) × ℕ)) :
    ∀ (t : PriceTable) (o g : String),
      ((evs.map Prod.fst).Nodup) → (∀ e ∈ evs, e.1.1 ∈ t.map Prod.fst) →
      lookupPrice (evs.foldl priceStep t) o g =
        match evs.find? (keyMatch o g) with
        | some e => some e.2
        | none => lookupPrice t o g := by
  induction evs with
  | nil =>
    intro t o g _ _
    rfl
  | cons e evs ih =>
    intro t o g hnd hmem
    rw [List.foldl_cons]
    simp only [List.map_cons, List.nodup_cons] at hnd
    have hmem2 : ∀ x ∈ evs, x.1.1 ∈ (priceStep t e).map Prod.fst := by
      intro x hx
      unfold priceStep
      rw [mapFst_setPrice]
      exact hmem x (List.mem_cons_of_mem e hx)
    cases hk : keyMatch o g e with
    | true =>
      obtain ⟨h1, h2⟩ := (keyMatch_true_iff o g e).1 hk
      have hnotin : ∀ x ∈ evs, ¬ keyMatch o g x = true := by
        intro x hx hxk
        obtain ⟨hx1, hx2⟩ := (keyMatch_true_iff o g x).1 hxk
        apply hnd.1
        have : x.1 = e.1 := by
          rw [Prod.ext_iff]
          constructor
          · rw [hx1, h1]
          · rw [hx2, h2]
        rw [← this]
        exact List.mem_map_of_mem Prod.fst hx
      rw [ih (priceStep t e) o g hnd.2 hmem2]
      rw [List.find?_eq_none.2 hnotin]
      have hfind : (e :: evs).find? (keyMatch o g) = some e := by
        simp [List.find?, hk]
      rw [hfind]
      unfold priceStep
      rw [← h1, ← h2]
      exact lookupPrice_setPrice_self t e.1.1 e.1.2 e.2 (hmem e (List.mem_cons_self e evs))
    | false =>
      rw [ih (priceStep t e) o g hnd.2 hmem2]
      have hfind : (e :: evs).find? (keyMatch o g) = evs.find? (keyMatch o g) := by
        simp [List.find?, hk]
      rw [hfind]
      cases hf : evs.find? (keyMatch o g) with
      | some x => rfl
      | none =>
        unfold priceStep
        apply lookupPrice_setPrice_ne
        intro hog
        have hkt : keyMatch o g e = true :=
          (keyMatch_true_iff o g e).2 ⟨hog.1.symm, hog.2.symm⟩
        rw [hk] at hkt
        exact Bool.false_ne_true hkt

/-! Helper lemmas: structure of the parse events. -/

theorem insertIdx_perm (x : String × ℕ) : ∀ l, List.Perm (insertIdx x l) (x :: l)
  | [] => List.Perm.refl _
  | y :: t => by
    unfold insertIdx
    by_cases h : x.2 ≤ y.2
    · rw [if_pos h]
    · rw [if_neg h]
      exact (List.Perm.cons y (insertIdx_perm x t)).trans (List.Perm.swap x y t)

theorem isort_perm : ∀ l, List.Perm (isort l) l
  | [] => List.Perm.refl _
  | x :: t => by
    unfold isort
    exact (insertIdx_perm x (isort t)).trans (List.Perm.cons x (isort_perm t))

theorem mapFst_mkBlocks (flat : Str) :
    ∀ l, (mkBlocks flat l).map Prod.fst = l.map Prod.fst
  | [] => rfl
  | (o, st) :: rest => by
    simp only [mkBlocks, List.map_cons]
    rw [mapFst_mkBlocks flat rest]

theorem oreIdxRaw_fst_nodup (flat : Str) : ((oreIdxRaw flat).map Prod.fst).Nodup := by
  unfold oreIdxRaw
  cases h1 : findSub (chars "lump") (lowerS flat) <;>
    cases h2 : findSub (chars "fine") (lowerS flat) <;>
      cases h3 : findSub (chars "conc") (lowerS flat) <;>
        simp

theorem mem_anchor_fst {o : Option ℕ} {lab : String} {x : String × ℕ}
    (hx : x ∈ (match o with
               | some i => [((lab : String), i)]
               | none => ([] : List (String × ℕ)))) : x.1 = lab := by
  cases o with
  | none => simp at hx
  | some i =>
    simp at hx
    rw [hx]

theorem oreIdxRaw_fst_mem (flat : Str) :
    ∀ x ∈ oreIdxRaw flat, x.1 = "L" ∨ x.1 = "F" ∨ x.1 = "C" := by
  intro x hx
  unfold oreIdxRaw at hx
  rcases List.mem_append.1 hx with h | h
  · rcases List.mem_append.1 h with h2 | h2
    · exact Or.inl (mem_anchor_fst h2)
    · exact Or.inr (Or.inl (mem_anchor_fst h2))
  · exact Or.inr (Or.inr (mem_anchor_fst h))

theorem oreBlocks_fst_nodup (flat : Str) : ((oreBlocks flat).map Prod.fst).Nodup := by
  unfold oreBlocks oreIdxs
  rw [mapFst_mkBlocks]
  exact ((isort_perm (oreIdxRaw flat)).map Prod.fst).nodup_iff.2 (oreIdxRaw_fst_nodup flat)

theorem oreBlocks_fst_mem (flat : Str) :
    ∀ b ∈ oreBlocks flat, b.1 = "L" ∨ b.1 = "F" ∨ b.1 = "C" := by
  intro b hb
  have h1 : b.1 ∈ (oreBlocks flat).map Prod.fst := List.mem_map_of_mem Prod.fst hb
  unfold oreBlocks oreIdxs at h1
  rw [mapFst_mkBlocks] at h1
  have h2 : b.1 ∈ (oreIdxRaw flat).map Prod.fst :=
    ((isort_perm (oreIdxRaw flat)).map Prod.fst).mem_iff.1 h1
  obtain ⟨x, hx, hfst⟩ := List.mem_map.1 h2
  rw [← hfst]
  exact oreIdxRaw_fst_mem flat x hx

theorem gradePats_fst : gradePats.map Prod.fst = ["A", "B", "C", "D", "E", "F"] := rfl

theorem blockEvents_fst_sublist_aux (bl : Str) :
    ∀ l : List (String × (Str → Option ℕ)),
      ((l.filterMap (fun p => (gradeCell bl p.2).map (fun v => (p.1, v)))).map Prod.fst).Sublist
        (l.map Prod.fst)
  | [] => List.Sublist.refl _
  | p :: l => by
    rw [List.filterMap_cons]
    cases h : gradeCell bl p.2 with
    | none =>
      simp only [Option.map_none']
      rw [List.map_cons]
      exact (blockEvents_fst_sublist_aux bl l).cons p.1
    | some v =>
      simp only [Option.map_some']
      rw [List.map_cons, List.map_cons]
      exact (blockEvents_fst_sublist_aux bl l).cons₂ p.1

theorem blockEvents_fst_nodup (b : Str) : ((blockEvents b).map Prod.fst).Nodup := by
  unfold blockEvents
  apply List.Sublist.nodup (blockEvents_fst_sublist_aux (lowerS b) gradePats)
  rw [gradePats_fst]
  decide

theorem priceEvents_key_fst (flat : Str) :
    ∀ e ∈ priceEvents flat, e.1.1 ∈ (["L", "F", "C"] : List String) := by
  intro e he
  unfold priceEvents at he
  obtain ⟨ob, hob, he2⟩ := List.mem_flatMap.1 he
  obtain ⟨x, _, hx2⟩ := List.mem_map.1 he2
  have : e.1.1 = ob.1 := by
    rw [← hx2]
  rw [this]
  rcases oreBlocks_fst_mem flat ob hob with h | h | h <;> simp [h]

theorem priceEvents_keys_nodup (flat : Str) : ((priceEvents flat).map Prod.fst).Nodup := by
  unfold priceEvents
  have hnd := oreBlocks_fst_nodup flat
  revert hnd
  generalize oreBlocks flat = bs
  intro hnd
  induction bs with
  | nil => simp
  | cons b bs ih =>
    rw [List.map_cons, List.nodup_cons] at hnd
    rw [List.flatMap_cons, List.map_append]
    refine List.nodup_append.2 ⟨?_, ih hnd.2, ?_⟩
    · have hcomp : ((blockEvents b.2).map (fun e => ((b.1, e.1), e.2))).map Prod.fst
          = ((blockEvents b.2).map Prod.fst).map (fun c => (b.1, c)) := by
        rw [List.map_map, List.map_map]
        rfl
      rw [hcomp]
      apply List.Nodup.map _ (blockEvents_fst_nodup b.2)
      intro a b2 hab
      injection hab
    · intro a ha hb
      have hcomp2 : ((blockEvents b.2).map (fun e => ((b.1, e.1), e.2))).map Prod.fst
          = ((blockEvents b.2).map Prod.fst).map (fun c => (b.1, c)) := by
        rw [List.map_map, List.map_map]
        rfl
      rw [hcomp2] at ha
      obtain ⟨c, _, hc⟩ := List.mem_map.1 ha
      apply hnd.1
      have hafst : a.1 = b.1 := by rw [← hc]
      obtain ⟨y, hy1, hy2⟩ := List.mem_map.1 hb
      obtain ⟨ob, hob, hy3⟩ := List.mem_flatMap.1 hy1
      obtain ⟨z, _, hz2⟩ := List.mem_map.1 hy3
      have hyfst : y.1.1 = ob.1 := by rw [← hz2]
      have hao : a.1 = ob.1 := by rw [← hy2, hyfst]
      rw [← hafst, hao]
      exact List.mem_map_of_mem Prod.fst hob

theorem lookupPrice_init_none (o g : String) : lookupPrice initPrices o g = none := by
  unfold lookupPrice initPrices
  by_cases hL : o = "L"
  · subst hL
    rfl
  · by_cases hF : o = "F"
    · subst hF
      rfl
    · by_cases hC : o = "C"
      · subst hC
        rfl
      · have h1 : (o == "L") = false := by simp [hL]
        have h2 : (o == "F") = false := by simp [hF]
        have h3 : (o == "C") = false := by simp [hC]
        simp [List.lookup, h1, h2, h3]

theorem extract_lookup (text : Str) (o g : String) :
    lookupPrice (extract_prices_regex text) o g =
      ((priceEvents (goaFlat text)).find? (keyMatch o g)).map (fun e => e.2) := by
  unfold extract_prices_regex
  rw [lookupPrice_foldl (priceEvents (goaFlat text)) initPrices o g
    (priceEvents_keys_nodup (goaFlat text)) ?hmem]
  case hmem =>
    intro e he
    have h := priceEvents_key_fst (goaFlat text) e he
    have hkeys : initPrices.map Prod.fst = ["L", "F", "C"] := rfl
    rw [hkeys]
    exact h
  cases hf : (priceEvents (goaFlat text)).find? (keyMatch o g) with
  | some e => rfl
  | none => simp [lookupPrice_init_none]

/-! Helper lemmas: Python dict.update on rows. -/

theorem lookup_map_update (d u : Row) (k : String) :
    (d.map (fun p => match u.lookup p.1 with
                     | some v => (p.1, v)
                     | none => p)).lookup k =
      (d.lookup k).map (fun w => (u.lookup k).getD w) := by
  induction d with
  | nil => rfl
  | cons p t ih =>
    obtain ⟨x, w⟩ := p
    rw [List.map_cons]
    by_cases hk : k = x
    · subst hk
      cases hu : u.lookup k with
      | some v => simp [List.lookup, hu]
      | none => simp [List.lookup, hu]
    · have hkx : (k == x) = false := by simp [hk]
      cases hu : u.lookup x with
      | some v =>
        simp only [hu, List.lookup, hkx]
        exact ih
      | none =>
        simp only [hu, List.lookup, hkx]
        exact ih

theorem lookup_filter_new (d u : Row) (k : String) :
    (u.filter (fun q => (d.lookup q.1).isNone)).lookup k =
      if (d.lookup k).isNone = true then u.lookup k else none := by
  induction u with
  | nil => simp [List.lookup]
  | cons q t ih =>
    obtain ⟨x, w⟩ := q
    rw [List.filter_cons]
    by_cases hk : k = x
    · subst hk
      cases hd : (d.lookup k).isNone with
      | true => simp [hd, List.lookup]
      | false => simp [hd, List.lookup, ih]
    · have hkx : (k == x) = false := by simp [hk]
      have hstep : List.lookup k ((x, w) :: t) = List.lookup k t := by
        simp [List.lookup, hkx]
      rw [hstep]
      cases hd : (d.lookup x).isNone with
      | true =>
        rw [if_pos rfl]
        have hstep2 : List.lookup k ((x, w) :: t.filter (fun q => (d.lookup q.1).isNone))
            = List.lookup k (t.filter (fun q => (d.lookup q.1).isNone)) := by
          simp [List.lookup, hkx]
        rw [hstep2]
        exact ih
      | false =>
        simp only [hd, Bool.false_eq_true, if_false]
        exact ih

theorem lookup_dictUpdate (d u : Row) (k : String) :
    (dictUpdate d u).lookup k =
      match u.lookup k with
      | some v => some v
      | none => d.lookup k := by
  unfold dictUpdate
  rw [lookup_append_mc, lookup_map_update, lookup_filter_new]
  cases hd : d.lookup k with
  | some w =>
    cases hu : u.lookup k with
    | some v => simp
    | none => simp
  | none =>
    cases hu : u.lookup k with
    | some v => simp [hu]
    | none => simp [hu]

/-! Claim theorems.  The section re-enables definitional unfolding of the
irreducible rational operations so that concrete instances evaluate
inside the kernel. -/

section ClaimTheorems

set_option allowUnsafeReducibility true

attribute [local semireducible] Rat.mul Rat.add Rat.sub Rat.inv Rat.ofScientific

/-- C1: grade bucketing is a total function on the extracted integer
iron-content values: every extracted value falls in one of the six
buckets, with n below 55 in A, 55 to 57 in B, 58 to 59 in C, 60 to 61 in
D, 62 to 64 in E, and 65 and up in F; the boundary values 54, 55, 57,
58, 59, 60, 61, 62, 64, 65 map to A, B, B, C, C, D, D, E, E, F. -/
theorem c1_grade_bucket_total :
    (∀ n : ℕ,
      gradeBucket n ∈ (["A", "B", "C", "D", "E", "F"] : List String) ∧
      (n < 55 → gradeBucket n = "A") ∧
      (55 ≤ n → n < 58 → gradeBucket n = "B") ∧
      (58 ≤ n → n < 60 → gradeBucket n = "C") ∧
      (60 ≤ n → n < 62 → gradeBucket n = "D") ∧
      (62 ≤ n → n < 65 → gradeBucket n = "E") ∧
      (65 ≤ n → gradeBucket n = "F")) ∧
    (gradeBucket 54 = "A" ∧ gradeBucket 55 = "B" ∧ gradeBucket 57 = "B" ∧
     gradeBucket 58 = "C" ∧ gradeBucket 59 = "C" ∧ gradeBucket 60 = "D" ∧
     gradeBucket 61 = "D" ∧ gradeBucket 62 = "E" ∧ gradeBucket 64 = "E" ∧
     gradeBucket 65 = "F") := by
  constructor
  · intro n
    refine ⟨?_, ?_, ?_, ?_, ?_, ?_, ?_⟩
    · unfold gradeBucket
      split_ifs <;> first | omega | simp
    · intro h1
      unfold gradeBucket
      split_ifs <;> first | rfl | omega
    · intro h1 h2
      unfold gradeBucket
      split_ifs <;> first | rfl | omega
    · intro h1 h2
      unfold gradeBucket
      split_ifs <;> first | rfl | omega
    · intro h1 h2
      unfold gradeBucket
      split_ifs <;> first | rfl | omega
    · intro h1 h2
      unfold gradeBucket
      split_ifs <;> first | rfl | omega
    · intro h1
      unfold gradeBucket
      split_ifs <;> first | rfl | omega
  · refine ⟨?_, ?_, ?_, ?_, ?_, ?_, ?_, ?_, ?_, ?_⟩ <;> decide

theorem c1_grade_bucket_total_witness :
    ((55 : ℕ) ≤ 57 ∧ (57 : ℕ) < 58) ∧ gradeBucket 57 = "B" :=
  ⟨⟨by decide, by decide⟩, (c1_grade_bucket_total.1 57).2.2.1 (by decide) (by decide)⟩

/-- C2 counterexample: the bare single-letter canonical code B (Bauxite)
does not pass through get_ore_type: it maps to none (unresolved), not to
the code B, contradicting the claim that any of the closed set's codes,
including B and M, passes through. -/
theorem c2_cex_bare_letter_b :
    get_ore_type (Value.str (chars "B")) = none ∧
    get_ore_type (Value.str (chars "M")) = none := by
  constructor <;> decide

/-- C2 (amended): commodity normalization applies its rules in order with
first match winning, case-insensitively on the stripped text: containment
of bauxite maps to B, then manganese to M; the single-letter pass-through
accepts exactly the codes L, F and C (bare B and M are not passed
through and resolve to unresolved); then containment of lump, fine, conc
maps to L, F, C; anything else is unresolved.  The claimed examples
Lumps, Fine Ore, Concentrate, Bauxite Ore, xyz behave as stated. -/
theorem c2_ore_rules_amended :
    (∀ s : Str,
      ((∃ u v, lowerS (strip s) = u ++ chars "bauxite" ++ v) →
          get_ore_type (Value.str s) = some "B") ∧
      (¬(∃ u v, lowerS (strip s) = u ++ chars "bauxite" ++ v) →
       (∃ u v, lowerS (strip s) = u ++ chars "manganese" ++ v) →
          get_ore_type (Value.str s) = some "M") ∧
      (¬(∃ u v, lowerS (strip s) = u ++ chars "bauxite" ++ v) →
       ¬(∃ u v, lowerS (strip s) = u ++ chars "manganese" ++ v) →
       lowerS (strip s) = chars "l" →
          get_ore_type (Value.str s) = some "L") ∧
      (¬(∃ u v, lowerS (strip s) = u ++ chars "bauxite" ++ v) →
       ¬(∃ u v, lowerS (strip s) = u ++ chars "manganese" ++ v) →
       lowerS (strip s) = chars "f" →
          get_ore_type (Value.str s) = some "F") ∧
      (¬(∃ u v, lowerS (strip s) = u ++ chars "bauxite" ++ v) →
       ¬(∃ u v, lowerS (strip s) = u ++ chars "manganese" ++ v) →
       lowerS (strip s) = chars "c" →
          get_ore_type (Value.str s) = some "C") ∧
      (¬(∃ u v, lowerS (strip s) = u ++ chars "bauxite" ++ v) →
       ¬(∃ u v, lowerS (strip s) = u ++ chars "manganese" ++ v) →
       lowerS (strip s) ≠ chars "l" → lowerS (strip s) ≠ chars "f" →
       lowerS (strip s) ≠ chars "c" →
       (∃ u v, lowerS (strip s) = u ++ chars "lump" ++ v) →
          get_ore_type (Value.str s) = some "L") ∧
      (¬(∃ u v, lowerS (strip s) = u ++ chars "bauxite" ++ v) →
       ¬(∃ u v, lowerS (strip s) = u ++ chars "manganese" ++ v) →
       lowerS (strip s) ≠ chars "l" → lowerS (strip s) ≠ chars "f" →
       lowerS (strip s) ≠ chars "c" →
       ¬(∃ u v, lowerS (strip s) = u ++ chars "lump" ++ v) →
       (∃ u v, lowerS (strip s) = u ++ chars "fine" ++ v) →
          get_ore_type (Value.str s) = some "F") ∧
      (¬(∃ u v, lowerS (strip s) = u ++ chars "bauxite" ++ v) →
       ¬(∃ u v, lowerS (strip s) = u ++ chars "manganese" ++ v) →
       lowerS (strip s) ≠ chars "l" → lowerS (strip s) ≠ chars "f" →
       lowerS (strip s) ≠ chars "c" →
       ¬(∃ u v, lowerS (strip s) = u ++ chars "lump" ++ v) →
       ¬(∃ u v, lowerS (strip s) = u ++ chars "fine" ++ v) →
       (∃ u v, lowerS (strip s) = u ++ chars "conc" ++ v) →
          get_ore_type (Value.str s) = some "C") ∧
      (¬(∃ u v, lowerS (strip s) = u ++ chars "bauxite" ++ v) →
       ¬(∃ u v, lowerS (strip s) = u ++ chars "manganese" ++ v) →
       lowerS (strip s) ≠ chars "l" → lowerS (strip s) ≠ chars "f" →
       lowerS (strip s) ≠ chars "c" →
       ¬(∃ u v, lowerS (strip s) = u ++ chars "lump" ++ v) →
       ¬(∃ u v, lowerS (strip s) = u ++ chars "fine" ++ v) →
       ¬(∃ u v, lowerS (strip s) = u ++ chars "conc" ++ v) →
          get_ore_type (Value.str s) = none)) ∧
    (get_ore_type (Value.str (chars "Lumps")) = some "L" ∧
     get_ore_type (Value.str (chars "Fine Ore")) = some "F" ∧
     get_ore_type (Value.str (chars "Concentrate")) = some "C" ∧
     get_ore_type (Value.str (chars "Bauxite Ore")) = some "B" ∧
     get_ore_type (Value.str (chars "xyz")) = none) := by
  constructor
  · intro s
    refine ⟨?_, ?_, ?_, ?_, ?_, ?_, ?_, ?_, ?_⟩
    · intro hb
      have hb2 := (containsSub_iff (chars "bauxite") (lowerS (strip s))).2 hb
      simp [get_ore_type, pyStr, hb2]
    · intro hb hm
      have hb2 := (containsSub_false_iff (chars "bauxite") (lowerS (strip s))).2 hb
      have hm2 := (containsSub_iff (chars "manganese") (lowerS (strip s))).2 hm
      simp [get_ore_type, pyStr, hb2, hm2]
    · intro hb hm hl
      simp only [get_ore_type, pyStr]
      simp only [hl]
      decide
    · intro hb hm hf
      simp only [get_ore_type, pyStr]
      simp only [hf]
      decide
    · intro hb hm hc
      simp only [get_ore_type, pyStr]
      simp only [hc]
      decide
    · intro hb hm hl hf hc hlump
      have hb2 := (containsSub_false_iff (chars "bauxite") (lowerS (strip s))).2 hb
      have hm2 := (containsSub_false_iff (chars "manganese") (lowerS (strip s))).2 hm
      have hl2 := (containsSub_iff (chars "lump") (lowerS (strip s))).2 hlump
      simp [get_ore_type, pyStr, hb2, hm2, hl, hf, hc, hl2]
    · intro hb hm hl hf hc hlump hfine
      have hb2 := (containsSub_false_iff (chars "bauxite") (lowerS (strip s))).2 hb
      have hm2 := (containsSub_false_iff (chars "manganese") (lowerS (strip s))).2 hm
      have hl2 := (containsSub_false_iff (chars "lump") (lowerS (strip s))).2 hlump
      have hf2 := (containsSub_iff (chars "fine") (lowerS (strip s))).2 hfine
      simp [get_ore_type, pyStr, hb2, hm2, hl, hf, hc, hl2, hf2]
    · intro hb hm hl hf hc hlump hfine hconc
      have hb2 := (containsSub_false_iff (chars "bauxite") (lowerS (strip s))).2 hb
      have hm2 := (containsSub_false_iff (chars "manganese") (lowerS (strip s))).2 hm
      have hl2 := (containsSub_false_iff (chars "lump") (lowerS (strip s))).2 hlump
      have hf2 := (containsSub_false_iff (chars "fine") (lowerS (strip s))).2 hfine
      have hc2 := (containsSub_iff (chars "conc") (lowerS (strip s))).2 hconc
      simp [get_ore_type, pyStr, hb2, hm2, hl, hf, hc, hl2, hf2, hc2]
    · intro hb hm hl hf hc hlump hfine hconc
      have hb2 := (containsSub_false_iff (chars "bauxite") (lowerS (strip s))).2 hb
      have hm2 := (containsSub_false_iff (chars "manganese") (lowerS (strip s))).2 hm
      have hl2 := (containsSub_false_iff (chars "lump") (lowerS (strip s))).2 hlump
      have hf2 := (containsSub_false_iff (chars "fine") (lowerS (strip s))).2 hfine
      have hc2 := (containsSub_false_iff (chars "conc") (lowerS (strip s))).2 hconc
      simp [get_ore_type, pyStr, hb2, hm2, hl, hf, hc, hl2, hf2, hc2]
  · refine ⟨?_, ?_, ?_, ?_, ?_⟩ <;> decide

theorem c2_ore_rules_amended_witness :
    (∃ u v, lowerS (strip (chars "Bauxite Ore")) = u ++ chars "bauxite" ++ v) ∧
    get_ore_type (Value.str (chars "Bauxite Ore")) = some "B" :=
  ⟨⟨[], chars " ore", by decide⟩,
   (c2_ore_rules_amended.1 (chars "Bauxite Ore")).1 ⟨[], chars " ore", by decide⟩⟩

/-- C4: the levy resolution order: an unresolved commodity gives status
Error: Invalid Ore Type and price 0; else an unresolved grade gives
Error: Invalid Grade and price 0; else a missing table entry gives Rate
Not Found (NA in Gazette) and price 0; else the status is Success and
the price is the table entry. -/
theorem c4_resolution_order (prices : PriceTable) (qtyRaw oreRaw gradeRaw : Value) :
    (get_ore_type oreRaw = none →
      (levyFields prices qtyRaw oreRaw gradeRaw).levStatus = "Error: Invalid Ore Type" ∧
      (levyFields prices qtyRaw oreRaw gradeRaw).rate = 0) ∧
    (∀ o, get_ore_type oreRaw = some o → get_grade_code gradeRaw = "Unknown" →
      (levyFields prices qtyRaw oreRaw gradeRaw).levStatus = "Error: Invalid Grade" ∧
      (levyFields prices qtyRaw oreRaw gradeRaw).rate = 0) ∧
    (∀ o, get_ore_type oreRaw = some o → get_grade_code gradeRaw ≠ "Unknown" →
      lookupPrice prices o (get_grade_code gradeRaw) = none →
      (levyFields prices qtyRaw oreRaw gradeRaw).levStatus = "Rate Not Found (NA in Gazette)" ∧
      (levyFields prices qtyRaw oreRaw gradeRaw).rate = 0) ∧
    (∀ o p, get_ore_type oreRaw = some o → get_grade_code gradeRaw ≠ "Unknown" →
      lookupPrice prices o (get_grade_code gradeRaw) = some p →
      (levyFields prices qtyRaw oreRaw gradeRaw).levStatus = "Success" ∧
      (levyFields prices qtyRaw oreRaw gradeRaw).rate = (p : ℚ)) := by
  have hstat : (levyFields prices qtyRaw oreRaw gradeRaw).levStatus
      = (rateStatus prices (get_ore_type oreRaw) (get_grade_code gradeRaw)).2 := rfl
  have hrate : (levyFields prices qtyRaw oreRaw gradeRaw).rate
      = (rateStatus prices (get_ore_type oreRaw) (get_grade_code gradeRaw)).1 := rfl
  refine ⟨?_, ?_, ?_, ?_⟩
  · intro h
    rw [hstat, hrate, h]
    exact ⟨rfl, rfl⟩
  · intro o ho hg
    rw [hstat, hrate, ho]
    simp [rateStatus, hg]
  · intro o ho hg hlk
    rw [hstat, hrate, ho]
    simp [rateStatus, hg, hlk]
  · intro o p ho hg hlk
    rw [hstat, hrate, ho]
    simp [rateStatus, hg, hlk]

theorem c4_resolution_order_witness :
    (levyFields initPrices (Value.num 5) (Value.str (chars "granite"))
        (Value.str (chars "60"))).levStatus = "Error: Invalid Ore Type" ∧
    (levyFields initPrices (Value.num 5) (Value.str (chars "granite"))
        (Value.str (chars "60"))).rate = 0 :=
  (c4_resolution_order initPrices (Value.num 5) (Value.str (chars "granite"))
      (Value.str (chars "60"))).1 (by decide)

/-- C5: the levy arithmetic: base value is quantity times resolved rate,
royalty is 15 percent of the base value, and the development fee is 30
percent of the royalty; on the documented round trip (quantity 1000,
Lumps, grade D, table entry 500) the outputs are rate 500, base 500000,
royalty 75000, fee 22500 and status Success. -/
theorem c5_levy_arithmetic :
    (∀ (prices : PriceTable) (qtyRaw oreRaw gradeRaw : Value),
      (levyFields prices qtyRaw oreRaw gradeRaw).base
          = clean_currency qtyRaw * (levyFields prices qtyRaw oreRaw gradeRaw).rate ∧
      (levyFields prices qtyRaw oreRaw gradeRaw).royalty
          = (levyFields prices qtyRaw oreRaw gradeRaw).base * 0.15 ∧
      (levyFields prices qtyRaw oreRaw gradeRaw).dmf
          = (levyFields prices qtyRaw oreRaw gradeRaw).royalty * 0.30) ∧
    ((levyFields [("L", [("D", 500)])] (Value.num 1000) (Value.str (chars "Lumps"))
        (Value.str (chars "60"))).rate = 500 ∧
     (levyFields [("L", [("D", 500)])] (Value.num 1000) (Value.str (chars "Lumps"))
        (Value.str (chars "60"))).base = 500000 ∧
     (levyFields [("L", [("D", 500)])] (Value.num 1000) (Value.str (chars "Lumps"))
        (Value.str (chars "60"))).royalty = 75000 ∧
     (levyFields [("L", [("D", 500)])] (Value.num 1000) (Value.str (chars "Lumps"))
        (Value.str (chars "60"))).dmf = 22500 ∧
     (levyFields [("L", [("D", 500)])] (Value.num 1000) (Value.str (chars "Lumps"))
        (Value.str (chars "60"))).levStatus = "Success") := by
  constructor
  · intro prices qtyRaw oreRaw gradeRaw
    exact ⟨rfl, rfl, rfl⟩
  · refine ⟨?_, ?_, ?_, ?_, ?_⟩ <;> decide

/-- C6 counterexample: the monetary outputs are not non-negative for every
raw quantity: a parseable negative quantity propagates; with table price
500 for (L, D) and raw quantity -5, the base value is -2500, below 0. -/
theorem c6_cex_negative_quantity :
    (levyFields [("L", [("D", 500)])] (Value.str (chars "-5")) (Value.str (chars "Lumps"))
        (Value.str (chars "60"))).base = -2500 ∧
    (levyFields [("L", [("D", 500)])] (Value.str (chars "-5")) (Value.str (chars "Lumps"))
        (Value.str (chars "60"))).base < 0 := by
  constructor <;> decide

/-- C6 (amended): the resolved rate is always non-negative, and all four
monetary outputs are non-negative whenever the parsed quantity is
non-negative; a missing, not-available or unparseable raw quantity is
clamped to zero (hence yields non-negative outputs); but a raw quantity
parsing to a negative number propagates into negative outputs. -/
theorem c6_nonneg_amended (prices : PriceTable) (qtyRaw oreRaw gradeRaw : Value) :
    (0 ≤ (levyFields prices qtyRaw oreRaw gradeRaw).rate) ∧
    (0 ≤ clean_currency qtyRaw →
      0 ≤ (levyFields prices qtyRaw oreRaw gradeRaw).base ∧
      0 ≤ (levyFields prices qtyRaw oreRaw gradeRaw).royalty ∧
      0 ≤ (levyFields prices qtyRaw oreRaw gradeRaw).dmf) ∧
    (lowerS (strip (pyStr qtyRaw)) ∈ naStrings → clean_currency qtyRaw = 0) ∧
    (pyFloatQ (cleanNumStr qtyRaw) = none → clean_currency qtyRaw = 0) ∧
    clean_currency Value.na = 0 := by
  have hrate : 0 ≤ (levyFields prices qtyRaw oreRaw gradeRaw).rate := by
    have h : (levyFields prices qtyRaw oreRaw gradeRaw).rate
        = (rateStatus prices (get_ore_type oreRaw) (get_grade_code gradeRaw)).1 := rfl
    rw [h]
    unfold rateStatus
    cases get_ore_type oreRaw with
    | none => simp
    | some o =>
      by_cases hg : get_grade_code gradeRaw = "Unknown"
      · simp [hg]
      · simp only [hg, if_false]
        cases lookupPrice prices o (get_grade_code gradeRaw) with
        | none => simp
        | some p => simp
  refine ⟨hrate, ?_, ?_, ?_, rfl⟩
  · intro hq
    have hbase : (levyFields prices qtyRaw oreRaw gradeRaw).base
        = clean_currency qtyRaw * (levyFields prices qtyRaw oreRaw gradeRaw).rate := rfl
    have hroyalty : (levyFields prices qtyRaw oreRaw gradeRaw).royalty
        = (levyFields prices qtyRaw oreRaw gradeRaw).base * 0.15 := rfl
    have hdmf : (levyFields prices qtyRaw oreRaw gradeRaw).dmf
        = (levyFields prices qtyRaw oreRaw gradeRaw).royalty * 0.30 := rfl
    have hb : 0 ≤ (levyFields prices qtyRaw oreRaw gradeRaw).base := by
      rw [hbase]
      exact mul_nonneg hq hrate
    have hr : 0 ≤ (levyFields prices qtyRaw oreRaw gradeRaw).royalty := by
      rw [hroyalty]
      exact mul_nonneg hb (by norm_num)
    refine ⟨hb, hr, ?_⟩
    rw [hdmf]
    exact mul_nonneg hr (by norm_num)
  · intro hna
    cases qtyRaw with
    | na => rfl
    | str s => simp [clean_currency, hna]
    | num q => simp [clean_currency, hna]
  · intro hpf
    cases qtyRaw with
    | na => rfl
    | str s =>
      unfold clean_currency
      by_cases hna : lowerS (strip (pyStr (Value.str s))) ∈ naStrings
      · rw [if_pos hna]
      · rw [if_neg hna, hpf]
    | num q =>
      unfold clean_currency
      by_cases hna : lowerS (strip (pyStr (Value.num q))) ∈ naStrings
      · rw [if_pos hna]
      · rw [if_neg hna, hpf]

theorem c6_nonneg_amended_witness :
    ((0 : ℚ) ≤ clean_currency (Value.str (chars " NA "))) ∧
    (0 ≤ (levyFields initPrices (Value.str (chars " NA ")) (Value.str (chars "Lumps"))
        (Value.str (chars "60"))).base) ∧
    clean_currency (Value.str (chars "12abc")) = 0 :=
  ⟨by decide,
   ((c6_nonneg_amended initPrices (Value.str (chars " NA ")) (Value.str (chars "Lumps"))
       (Value.str (chars "60"))).2.1 (by decide)).1,
   (c6_nonneg_amended initPrices (Value.str (chars "12abc")) Value.na Value.na).2.2.2.1
     (by decide)⟩

/-- C8: within one parse of a document, each (commodity, grade) cell is
assigned at most once (the assignment keys of the parse are pairwise
distinct), and the value of every cell of the returned table is exactly
the first price matched for that pair, absent when no match occurred: a
cell, once set, is never overwritten by a later match. -/
theorem c8_first_match_wins (text : Str) :
    (((priceEvents (goaFlat text)).map Prod.fst).Nodup) ∧
    (∀ o g : String,
      lookupPrice (extract_prices_regex text) o g =
        ((priceEvents (goaFlat text)).find? (keyMatch o g)).map (fun e => e.2)) :=
  ⟨priceEvents_keys_nodup (goaFlat text), fun o g => extract_lookup text o g⟩

/-- C3 (amended): when a grade pattern matches inside a commodity block
and the first number-or-NA token of the following 40-character snippet is
the literal NA marker, no price is recorded for that (commodity, grade)
cell: the returned table leaves the cell absent, it does not record an
explicit zero. -/
theorem c3_na_leaves_cell_absent (text : Str) (ob : String × Str)
    (p : String × (Str → Option ℕ)) (e : ℕ)
    (hob : ob ∈ oreBlocks (goaFlat text)) (hp : p ∈ gradePats)
    (hmatch : p.2 (lowerS ob.2) = some e)
    (hna : valToken (((lowerS ob.2).drop e).take 40) = some none) :
    lookupPrice (extract_prices_regex text) ob.1 p.1 = none := by
  rw [extract_lookup]
  have hcell : gradeCell (lowerS ob.2) p.2 = none := by
    unfold gradeCell
    simp only [hmatch]
    rw [hna]
  have hfind : (priceEvents (goaFlat text)).find? (keyMatch ob.1 p.1) = none := by
    apply List.find?_eq_none.2
    intro x hx hkx
    obtain ⟨h1, h2⟩ := (keyMatch_true_iff ob.1 p.1 x).1 hkx
    unfold priceEvents at hx
    obtain ⟨ob2, hob2, hx2⟩ := List.mem_flatMap.1 hx
    obtain ⟨ev, hev, hev2⟩ := List.mem_map.1 hx2
    have hxfst : x.1.1 = ob2.1 := by rw [← hev2]
    have hxsnd : x.1.2 = ev.1 := by rw [← hev2]
    have hlab : ob2.1 = ob.1 := by rw [← hxfst, h1]
    have hob2eq : ob2 = ob := by
      have hnd := oreBlocks_fst_nodup (goaFlat text)
      exact List.inj_on_of_nodup_map hnd hob2 hob hlab
    rw [hob2eq] at hev
    unfold blockEvents at hev
    obtain ⟨q, hq, hq2⟩ := List.mem_filterMap.1 hev
    cases hgc : gradeCell (lowerS ob.2) q.2 with
    | none =>
      rw [hgc] at hq2
      simp at hq2
    | some v =>
      rw [hgc] at hq2
      simp at hq2
      have hq1 : q.1 = ev.1 := by rw [← hq2]
      have hqp : q.1 = p.1 := by rw [hq1, ← hxsnd, h2]
      have hqep : q = p := by
        have hnd2 : (gradePats.map Prod.fst).Nodup := by
          rw [gradePats_fst]
          decide
        exact List.inj_on_of_nodup_map hnd2 hq hp hqp
      rw [hqep, hcell] at hgc
      exact Option.noConfusion hgc
  rw [hfind]
  rfl

/-- C3 counterexample: in the document "Goa Lumps below 55 NA Gujarat"
the grade-A pattern matches inside the Lumps block (ending at offset 14)
and the first token of the following snippet is the NA marker, yet the
returned table has no (L, A) entry at all: the cell is absent, not
present with value zero. -/
theorem c3_cex_na_cell :
    searchBelow55 (lowerS (chars "Lumps below 55 NA ")) = some 14 ∧
    valToken (((lowerS (chars "Lumps below 55 NA ")).drop 14).take 40) = some none ∧
    oreBlocks (goaFlat (chars "Goa Lumps below 55 NA Gujarat"))
      = [("L", chars "Lumps below 55 NA ")] ∧
    lookupPrice (extract_prices_regex (chars "Goa Lumps below 55 NA Gujarat")) "L" "A"
      = none := by
  refine ⟨?_, ?_, ?_, ?_⟩ <;> decide

theorem c3_na_leaves_cell_absent_witness :
    ("L", chars "Lumps below 55 NA ")
        ∈ oreBlocks (goaFlat (chars "Goa Lumps below 55 NA Gujarat")) ∧
    lookupPrice (extract_prices_regex (chars "Goa Lumps below 55 NA Gujarat")) "L" "A"
      = none := by
  refine ⟨by decide, ?_⟩
  exact c3_na_leaves_cell_absent (chars "Goa Lumps below 55 NA Gujarat")
    ("L", chars "Lumps below 55 NA ") ("A", searchBelow55) 14 (by decide)
    (by unfold gradePats; exact List.mem_cons_self _ _) (by decide) (by decide)

/-- C7: when the whole-word jurisdiction name Goa never occurs in the
document text, the deterministic parser returns the initial table whose
three commodity dicts are all empty (no price entries, and no error),
and every record whose commodity and grade both resolve then gets status
Rate Not Found (NA in Gazette) with price 0. -/
theorem c7_missing_jurisdiction (text : Str)
    (hgoa : findWordCI (chars "Goa") text = none) :
    extract_prices_regex text = initPrices ∧
    (∀ (qtyRaw oreRaw gradeRaw : Value) (o : String),
      get_ore_type oreRaw = some o → get_grade_code gradeRaw ≠ "Unknown" →
      (levyFields (extract_prices_regex text) qtyRaw oreRaw gradeRaw).levStatus
          = "Rate Not Found (NA in Gazette)" ∧
      (levyFields (extract_prices_regex text) qtyRaw oreRaw gradeRaw).rate = 0) := by
  have hsec : goaSection text = [] := by
    unfold goaSection
    rw [hgoa]
  have hempty : extract_prices_regex text = initPrices := by
    unfold extract_prices_regex goaFlat
    rw [hsec]
    rfl
  refine ⟨hempty, ?_⟩
  intro qtyRaw oreRaw gradeRaw o ho hg
  have hlk : lookupPrice (extract_prices_regex text) o (get_grade_code gradeRaw) = none := by
    rw [hempty]
    exact lookupPrice_init_none o (get_grade_code gradeRaw)
  have hstat : (levyFields (extract_prices_regex text) qtyRaw oreRaw gradeRaw).levStatus
      = (rateStatus (extract_prices_regex text) (get_ore_type oreRaw)
          (get_grade_code gradeRaw)).2 := rfl
  have hrate : (levyFields (extract_prices_regex text) qtyRaw oreRaw gradeRaw).rate
      = (rateStatus (extract_prices_regex text) (get_ore_type oreRaw)
          (get_grade_code gradeRaw)).1 := rfl
  rw [hstat, hrate, ho]
  simp [rateStatus, hg, hlk]

theorem c7_missing_jurisdiction_witness :
    findWordCI (chars "Goa") (chars "Panaji price list") = none ∧
    extract_prices_regex (chars "Panaji price list") = initPrices ∧
    (levyFields (extract_prices_regex (chars "Panaji price list")) (Value.num 5)
        (Value.str (chars "Lumps")) (Value.str (chars "60"))).levStatus
      = "Rate Not Found (NA in Gazette)" :=
  ⟨by decide,
   (c7_missing_jurisdiction (chars "Panaji price list") (by decide)).1,
   ((c7_missing_jurisdiction (chars "Panaji price list") (by decide)).2 (Value.num 5)
      (Value.str (chars "Lumps")) (Value.str (chars "60")) "L" (by decide) (by decide)).1⟩

/-- C10: the regex parser's table always has exactly the commodity keys
L, F and C; consequently, against a regex-parsed table, a record that
resolves to Bauxite or Manganese with a resolved grade always gets
status Rate Not Found (NA in Gazette) with price 0, never Success. -/
theorem c10_lfc_keys_only (text : Str) :
    (extract_prices_regex text).map Prod.fst = ["L", "F", "C"] ∧
    (∀ (qtyRaw oreRaw gradeRaw : Value) (o : String),
      get_ore_type oreRaw = some o → (o = "B" ∨ o = "M") →
      get_grade_code gradeRaw ≠ "Unknown" →
      (levyFields (extract_prices_regex text) qtyRaw oreRaw gradeRaw).levStatus
          = "Rate Not Found (NA in Gazette)" ∧
      (levyFields (extract_prices_regex text) qtyRaw oreRaw gradeRaw).rate = 0) := by
  have hkeys : (extract_prices_regex text).map Prod.fst = ["L", "F", "C"] := by
    unfold extract_prices_regex
    rw [mapFst_foldl_priceStep]
    rfl
  refine ⟨hkeys, ?_⟩
  intro qtyRaw oreRaw gradeRaw o ho hbm hg
  have hnotmem : o ∉ (extract_prices_regex text).map Prod.fst := by
    rw [hkeys]
    rcases hbm with h | h <;> subst h <;> decide
  have hlk : lookupPrice (extract_prices_regex text) o (get_grade_code gradeRaw) = none := by
    unfold lookupPrice
    rw [lookup_none_of_not_mem_keys _ o hnotmem]
  have hstat : (levyFields (extract_prices_regex text) qtyRaw oreRaw gradeRaw).levStatus
      = (rateStatus (extract_prices_regex text) (get_ore_type oreRaw)
          (get_grade_code gradeRaw)).2 := rfl
  have hrate : (levyFields (extract_prices_regex text) qtyRaw oreRaw gradeRaw).rate
      = (rateStatus (extract_prices_regex text) (get_ore_type oreRaw)
          (get_grade_code gradeRaw)).1 := rfl
  rw [hstat, hrate, ho]
  simp [rateStatus, hg, hlk]

theorem c10_lfc_keys_only_witness :
    (extract_prices_regex (chars "Goa Lumps below 55 1200 Gujarat")).map Prod.fst
      = ["L", "F", "C"] ∧
    (levyFields (extract_prices_regex (chars "Goa Lumps below 55 1200 Gujarat"))
        (Value.num 5) (Value.str (chars "Bauxite Ore")) (Value.str (chars "60"))).levStatus
      = "Rate Not Found (NA in Gazette)" :=
  ⟨(c10_lfc_keys_only (chars "Goa Lumps below 55 1200 Gujarat")).1,
   ((c10_lfc_keys_only (chars "Goa Lumps below 55 1200 Gujarat")).2 (Value.num 5)
      (Value.str (chars "Bauxite Ore")) (Value.str (chars "60")) "B" (by decide)
      (Or.inl rfl) (by decide)).1⟩

/-- C9 counterexample: an original input field whose name collides with
one of the seven added field names is not preserved verbatim: a row that
already holds a Calculation Status cell with value keep gets it
overwritten by the computed status. -/
theorem c9_cex_field_collision :
    (processRecord initPrices ["Quantity"]
        [("Calculation Status", Value.str (chars "keep"))]).lookup "Calculation Status"
      = some (Value.str (chars "Error: Invalid Ore Type")) ∧
    ([(("Calculation Status" : String), Value.str (chars "keep"))] : Row).lookup
        "Calculation Status"
      = some (Value.str (chars "keep")) := by
  constructor <;> decide

/-- C9 (amended): the output is exactly the row-wise image of the input
(one output row per input row, in input order); every original field
whose name is not one of the seven added field names appears verbatim in
its output row; the seven added fields are present with the computed
levy values; but an original field named like an added field is
overwritten with the computed value rather than preserved. -/
theorem c9_rows_amended (prices : PriceTable) (columns : List String) (rows : List Row) :
    (process_rows prices columns rows).length = rows.length ∧
    process_rows prices columns rows = rows.map (processRecord prices columns) ∧
    (∀ (row : Row) (k : String), k ∉ addedNames →
      (processRecord prices columns row).lookup k = row.lookup k) ∧
    (∀ row : Row,
      (processRecord prices columns row).lookup "Calculation Status"
        = some (Value.str (chars (recordLevy prices columns row).levStatus)) ∧
      (processRecord prices columns row).lookup "Standardized Ore"
        = some (recordLevy prices columns row).oreDesc ∧
      (processRecord prices columns row).lookup "Standardized Grade"
        = some (Value.str (chars (recordLevy prices columns row).gradeDesc)) ∧
      (processRecord prices columns row).lookup "IBM Rate (₹)"
        = some (Value.num (recordLevy prices columns row).rate) ∧
      (processRecord prices columns row).lookup "Base Value (₹)"
        = some (Value.num (recordLevy prices columns row).base) ∧
      (processRecord prices columns row).lookup "Royalty Payable (15%)"
        = some (Value.num (recordLevy prices columns row).royalty) ∧
      (processRecord prices columns row).lookup "DMF Payable (30%)"
        = some (Value.num (recordLevy prices columns row).dmf)) := by
  refine ⟨by simp [process_rows], rfl, ?_, ?_⟩
  · intro row k hk
    unfold processRecord
    rw [lookup_dictUpdate]
    have hnone : (addedFields (recordLevy prices columns row)).lookup k = none := by
      apply lookup_none_of_not_mem_keys
      have hk2 : (addedFields (recordLevy prices columns row)).map Prod.fst = addedNames := rfl
      rw [hk2]
      exact hk
    rw [hnone]
  · intro row
    refine ⟨?_, ?_, ?_, ?_, ?_, ?_, ?_⟩ <;>
      (unfold processRecord
       rw [lookup_dictUpdate]
       rfl)

theorem c9_rows_amended_witness :
    ("Mine" ∉ addedNames) ∧
    (processRecord initPrices ["Quantity"]
        [("Mine", Value.str (chars "Sonshi"))]).lookup "Mine"
      = some (Value.str (chars "Sonshi")) :=
  ⟨by decide,
   ((c9_rows_amended initPrices ["Quantity"] []).2.2.1
       [("Mine", Value.str (chars "Sonshi"))] "Mine" (by decide)).trans (by decide)⟩

end ClaimTheorems

end MineralCalc
